import Mathlib

/-!
Verification of the calculator samples (src/samples/C/calculator.c and
src/samples/CPlusPlus/calculator.cpp) against their natural-language
specification.

Modelling conventions:
- C doubles are modelled as exact rationals; the arithmetic the code
  performs on them (+, -, *, /, comparisons) is the corresponding exact
  rational arithmetic.
- The platform function round (round half away from zero to an integer)
  is modelled by cround below.  The platform functions pow and sqrt, and
  the ambient errno flag after a pow call, have no closed rational form
  and are passed as explicit parameters to the engine functions that use
  them, mirroring the way the C code delegates to libm.
- A C pointer argument of type double* is modelled as an Option value:
  none is the null pointer, some r is a valid pointer whose cell
  currently holds r; the function result carries the new cell contents.
- The in-struct array history[MAX_HISTORY] together with history_count
  is modelled by the list of its meaningful prefix history[0..count):
  the history field always holds exactly the entries written so far, and
  history_count mirrors the C counter field.
- time(NULL) is an opaque clock; its current reading is passed in as an
  explicit parameter (now).
- C long long arithmetic is exact integer arithmetic reduced by wrap64,
  the two's-complement wrap-around at 64 bits.
-/

/-- Error codes of calculator.c (enum calc_error_t). -/
inductive calc_error_t where
  | CALC_SUCCESS
  | CALC_ERROR_DIVISION_BY_ZERO
  | CALC_ERROR_INVALID_INPUT
  | CALC_ERROR_MEMORY_ALLOCATION
  | CALC_ERROR_OVERFLOW
  | CALC_ERROR_NEGATIVE_ROOT
deriving DecidableEq

export calc_error_t (CALC_SUCCESS CALC_ERROR_DIVISION_BY_ZERO CALC_ERROR_INVALID_INPUT CALC_ERROR_MEMORY_ALLOCATION CALC_ERROR_OVERFLOW CALC_ERROR_NEGATIVE_ROOT)

/-- Operation kinds of calculator.c (enum operation_type_t). -/
inductive operation_type_t where
  | OP_ADD
  | OP_SUBTRACT
  | OP_MULTIPLY
  | OP_DIVIDE
  | OP_POWER
  | OP_SQUARE
  | OP_SQRT
deriving DecidableEq

export operation_type_t (OP_ADD OP_SUBTRACT OP_MULTIPLY OP_DIVIDE OP_POWER OP_SQUARE OP_SQRT)

/-- MAX_HISTORY constant of calculator.c. -/
def MAX_HISTORY : ℕ := 100

/-- MAX_NAME_LENGTH constant of calculator.c. -/
def MAX_NAME_LENGTH : ℕ := 50

/-- The C library function round: round half away from zero to an integer. -/
def cround (x : ℚ) : ℤ :=
  if 0 ≤ x then ⌊x + 1 / 2⌋ else ⌈x - 1 / 2⌉

/-- round_to_precision of calculator.c: factor = pow(10, precision);
round(value * factor) / factor. -/
def round_to_precision (value : ℚ) (precision : ℤ) : ℚ :=
  let factor : ℚ := 10 ^ precision
  (cround (value * factor) : ℚ) / factor

/-- history_entry_t of calculator.c.  The two-slot C array double operands[2]
is modelled as the two-element list of its contents. -/
structure history_entry_t where
  operation : operation_type_t
  operands : List ℚ
  result : ℚ
  timestamp : ℕ
deriving DecidableEq

/-- calculator_t of calculator.c.  The history field holds the meaningful
prefix history[0..history_count) of the in-struct array. -/
structure calculator_t where
  name : String
  precision : ℤ
  history : List history_entry_t
  history_count : ℕ
  enable_history : Bool
deriving DecidableEq

/-- add_to_history of calculator.c: a silent no-op when history is disabled
or the count has reached MAX_HISTORY; otherwise writes the entry at index
history_count and increments the counter. -/
def add_to_history (cal : calculator_t) (operation : operation_type_t)
    (operand1 operand2 result : ℚ) (now : ℕ) : calculator_t :=
  if cal.enable_history = false ∨ MAX_HISTORY ≤ cal.history_count then cal
  else
    { cal with
      history := cal.history.take cal.history_count ++
        [⟨operation, [operand1, operand2], result, now⟩],
      history_count := cal.history_count + 1 }

/-- calculator_init of calculator.c: rejects a null calculator or name
pointer with CALC_ERROR_INVALID_INPUT (leaving the pointee untouched);
otherwise copies at most MAX_NAME_LENGTH - 1 characters of the name, sets
the precision, zeroes the history count and enables history. -/
def calculator_init (cal : Option calculator_t) (name : Option String)
    (precision : ℤ) : calc_error_t × Option calculator_t :=
  match cal, name with
  | some _, some nm =>
      (CALC_SUCCESS,
        some { name := nm.take (MAX_NAME_LENGTH - 1), precision := precision,
               history := [], history_count := 0, enable_history := true })
  | _, _ => (CALC_ERROR_INVALID_INPUT, cal)

/-- calc_add of calculator.c. -/
def calc_add (a b : ℚ) (result : Option ℚ) : calc_error_t × Option ℚ :=
  match result with
  | none => (CALC_ERROR_INVALID_INPUT, none)
  | some _ => (CALC_SUCCESS, some (a + b))

/-- calc_subtract of calculator.c. -/
def calc_subtract (a b : ℚ) (result : Option ℚ) : calc_error_t × Option ℚ :=
  match result with
  | none => (CALC_ERROR_INVALID_INPUT, none)
  | some _ => (CALC_SUCCESS, some (a - b))

/-- calc_multiply of calculator.c. -/
def calc_multiply (a b : ℚ) (result : Option ℚ) : calc_error_t × Option ℚ :=
  match result with
  | none => (CALC_ERROR_INVALID_INPUT, none)
  | some _ => (CALC_SUCCESS, some (a * b))

/-- calc_divide of calculator.c: null pointer, then division by zero, then
the exact quotient. -/
def calc_divide (a b : ℚ) (result : Option ℚ) : calc_error_t × Option ℚ :=
  match result with
  | none => (CALC_ERROR_INVALID_INPUT, none)
  | some r =>
      if b = 0 then (CALC_ERROR_DIVISION_BY_ZERO, some r)
      else (CALC_SUCCESS, some (a / b))

/-- calc_power of calculator.c.  powf stands for the platform pow function
and errnoERange for the errno == ERANGE test performed after the pow call;
note that the result cell is written before errno is inspected. -/
def calc_power (powf : ℚ → ℚ → ℚ) (errnoERange : Bool) (base exponent : ℚ)
    (result : Option ℚ) : calc_error_t × Option ℚ :=
  match result with
  | none => (CALC_ERROR_INVALID_INPUT, none)
  | some _ =>
      let v := powf base exponent
      if errnoERange then (CALC_ERROR_OVERFLOW, some v)
      else (CALC_SUCCESS, some v)

/-- calc_square of calculator.c. -/
def calc_square (x : ℚ) (result : Option ℚ) : calc_error_t × Option ℚ :=
  match result with
  | none => (CALC_ERROR_INVALID_INPUT, none)
  | some _ => (CALC_SUCCESS, some (x * x))

/-- calc_sqrt of calculator.c; sqrtf stands for the platform sqrt function. -/
def calc_sqrt (sqrtf : ℚ → ℚ) (x : ℚ) (result : Option ℚ) :
    calc_error_t × Option ℚ :=
  match result with
  | none => (CALC_ERROR_INVALID_INPUT, none)
  | some r =>
      if x < 0 then (CALC_ERROR_NEGATIVE_ROOT, some r)
      else (CALC_SUCCESS, some (sqrtf x))

/-- calc_average of calculator.c: the numbers array is modelled as a list
whose first count elements are summed. -/
def calc_average (numbers : Option (List ℚ)) (count : ℤ)
    (result : Option ℚ) : calc_error_t × Option ℚ :=
  match numbers, result with
  | some ns, some _ =>
      if count ≤ 0 then (CALC_ERROR_INVALID_INPUT, result)
      else (CALC_SUCCESS, some ((ns.take count.toNat).sum / (count : ℚ)))
  | _, _ => (CALC_ERROR_INVALID_INPUT, result)

/-- binary_op_func of calculator.c (function-pointer type for binary
operations). -/
abbrev binary_op_func : Type := ℚ → ℚ → Option ℚ → calc_error_t × Option ℚ

/-- unary_op_func of calculator.c (function-pointer type for unary
operations). -/
abbrev unary_op_func : Type := ℚ → Option ℚ → calc_error_t × Option ℚ

/-- perform_binary_operation of calculator.c: rejects null pointers, calls
the dispatched engine function, and only on CALC_SUCCESS rounds the result
cell and appends a history entry.  The returned triple is (error code,
final result-cell contents, final calculator state). -/
def perform_binary_operation (cal : Option calculator_t) (a b : ℚ)
    (operation : operation_type_t) (op_func : Option binary_op_func)
    (result : Option ℚ) (now : ℕ) :
    calc_error_t × Option ℚ × Option calculator_t :=
  match cal, op_func, result with
  | some c, some f, some r0 =>
      let call := f a b (some r0)
      let r1 := call.2.getD r0
      if call.1 = CALC_SUCCESS then
        let r2 := round_to_precision r1 c.precision
        (call.1, some r2, some (add_to_history c operation a b r2 now))
      else (call.1, some r1, some c)
  | _, _, _ => (CALC_ERROR_INVALID_INPUT, result, cal)

/-- perform_unary_operation of calculator.c: as perform_binary_operation,
with 0.0 passed for the second operand slot of the history entry. -/
def perform_unary_operation (cal : Option calculator_t) (a : ℚ)
    (operation : operation_type_t) (op_func : Option unary_op_func)
    (result : Option ℚ) (now : ℕ) :
    calc_error_t × Option ℚ × Option calculator_t :=
  match cal, op_func, result with
  | some c, some f, some r0 =>
      let call := f a (some r0)
      let r1 := call.2.getD r0
      if call.1 = CALC_SUCCESS then
        let r2 := round_to_precision r1 c.precision
        (call.1, some r2, some (add_to_history c operation a 0 r2 now))
      else (call.1, some r1, some c)
  | _, _, _ => (CALC_ERROR_INVALID_INPUT, result, cal)

/-- clear_history of calculator.c. -/
def clear_history (cal : Option calculator_t) : Option calculator_t :=
  match cal with
  | some c => some { c with history := [], history_count := 0 }
  | none => none

/-- factorial of calculator.c: long long factorial(int n); returns -1 for
negative input, 1 for n at most 1, and otherwise n * factorial(n - 1)
computed in 64-bit signed arithmetic. -/
def wrap64 (z : ℤ) : ℤ :=
  (z + 2 ^ 63) % 2 ^ 64 - 2 ^ 63

def factorial (n : ℤ) : ℤ :=
  if n < 0 then -1
  else if n ≤ 1 then 1
  else wrap64 (n * factorial (n - 1))
termination_by n.toNat
decreasing_by omega

/-- is_prime of calculator.c, inner loop: for (i = 5; i * i <= n; i += 6)
testing divisibility by i and i + 2. -/
def is_prime_loop (n i : ℤ) : Bool :=
  if hle : i * i ≤ n then
    if n % i = 0 ∨ n % (i + 2) = 0 then false
    else is_prime_loop n (i + 6)
  else true
termination_by (n + 7 - i).toNat
decreasing_by
  have hin : i ≤ n := by
    rcases le_or_lt i 0 with h0 | h0
    · exact le_trans h0 (le_trans (mul_self_nonneg i) hle)
    · nlinarith
  omega

/-- is_prime of calculator.c. -/
def is_prime (n : ℤ) : Bool :=
  if n ≤ 1 then false
  else if n ≤ 3 then true
  else if n % 2 = 0 ∨ n % 3 = 0 then false
  else is_prime_loop n 5

/-- Reachable calculator states: produced by calculator_init and closed
under perform_binary_operation, perform_unary_operation and clear_history
(the full mutating surface of calculator.c). -/
inductive Reachable : calculator_t → Prop where
  | init (prev : Option calculator_t) (nm : String) (p : ℤ) (c : calculator_t)
      (h : (calculator_init prev (some nm) p).2 = some c) : Reachable c
  | binary (c : calculator_t) (a b : ℚ) (op : operation_type_t)
      (f : binary_op_func) (r0 : ℚ) (now : ℕ) (c2 : calculator_t)
      (hc : Reachable c)
      (h : (perform_binary_operation (some c) a b op (some f) (some r0) now).2.2
            = some c2) : Reachable c2
  | unary (c : calculator_t) (a : ℚ) (op : operation_type_t)
      (f : unary_op_func) (r0 : ℚ) (now : ℕ) (c2 : calculator_t)
      (hc : Reachable c)
      (h : (perform_unary_operation (some c) a op (some f) (some r0) now).2.2
            = some c2) : Reachable c2
  | clear (c : calculator_t) (c2 : calculator_t) (hc : Reachable c)
      (h : clear_history (some c) = some c2) : Reachable c2

/-- OperationType of calculator.cpp. -/
inductive OperationType where
  | ADD
  | SUBTRACT
  | MULTIPLY
  | DIVIDE
  | POWER
  | SQUARE
  | SQRT
  | AVERAGE
deriving DecidableEq

/-- HistoryEntry of calculator.cpp (instantiated at double): the operand
vector is a genuine variable-length list.  The opaque timestamp taken at
construction is omitted; no claim depends on it. -/
structure HistoryEntry where
  operation : OperationType
  operands : List ℚ
  result : ℚ
deriving DecidableEq

/-- CalculatorBase state of calculator.cpp: name_, precision_, history_,
enable_history_. -/
structure CalculatorBase where
  name : String
  precision : ℤ
  history : List HistoryEntry
  enable_history : Bool
deriving DecidableEq

/-- CalculatorBase::addToHistory of calculator.cpp: appends whenever
history is enabled; the vector grows without any capacity check. -/
def addToHistory (c : CalculatorBase) (op : OperationType)
    (operands : List ℚ) (result : ℚ) : CalculatorBase :=
  if c.enable_history then
    { c with history := c.history ++ [⟨op, operands, result⟩] }
  else c

/-- CalculatorBase::roundToPrecision of calculator.cpp; the formula is the
same as round_to_precision of calculator.c. -/
def roundToPrecision (c : CalculatorBase) (value : ℚ) : ℚ :=
  round_to_precision value c.precision

/-- AdvancedCalculator::divide of calculator.cpp: throws CalculatorException
on a zero divisor (modelled as the error branch of Except), otherwise
rounds the quotient, logs it and returns it. -/
def AdvancedCalculator.divide (c : CalculatorBase) (a b : ℚ) :
    Except String (ℚ × CalculatorBase) :=
  if b = 0 then Except.error "Division by zero"
  else
    let r := roundToPrecision c (a / b)
    Except.ok (r, addToHistory c OperationType.DIVIDE [a, b] r)

/-- AdvancedCalculator::square of calculator.cpp: rounds x * x, logs it
with the single-element operand vector, and returns it. -/
def AdvancedCalculator.square (c : CalculatorBase) (x : ℚ) :
    ℚ × CalculatorBase :=
  let r := roundToPrecision c (x * x)
  (r, addToHistory c OperationType.SQUARE [x] r)

/-- A sequence of n successful square operations on the C++ calculator,
each squaring 2; every intermediate state is reachable in calculator.cpp. -/
def squareIter (n : ℕ) (c : CalculatorBase) : CalculatorBase :=
  match n with
  | 0 => c
  | k + 1 => (AdvancedCalculator.square (squareIter k c) 2).2

/-- A concrete freshly initialized C calculator (the state produced by
calculator_init with name W and precision 4). -/
def calW : calculator_t :=
  { name := "W", precision := 4, history := [], history_count := 0,
    enable_history := true }

/-- A concrete C calculator state whose counter sits at capacity. -/
def calFull : calculator_t :=
  { name := "F", precision := 4, history := [], history_count := MAX_HISTORY,
    enable_history := true }

/-- A concrete freshly constructed C++ calculator. -/
def cppT : CalculatorBase :=
  { name := "Double Calculator", precision := 4, history := [],
    enable_history := true }

/-- The iterative form of the 64-bit factorial accumulation: the product
n * (n-1) * ... * 1 folded up from 2 with every partial product reduced
to 64-bit two's-complement. -/
def fact64spec (n : ℕ) : ℤ :=
  (List.range' 2 (n - 1)).foldl (fun (acc : ℤ) (k : ℕ) => wrap64 ((k : ℤ) * acc)) 1

/-- cround is the identity on integers. -/
theorem cround_intCast (n : ℤ) : cround (n : ℚ) = n := by
  unfold cround
  split_ifs with h
  · rw [Int.floor_int_add]
    norm_num
  · rw [show ((n : ℚ) - 1 / 2) = (-(1 / 2) + ((n : ℤ) : ℚ)) from by ring,
      Int.ceil_add_int]
    norm_num

/-- Rounding to a fixed precision is idempotent (for every integer
precision, in exact arithmetic). -/
theorem round_to_precision_idem (v : ℚ) (p : ℤ) :
    round_to_precision (round_to_precision v p) p = round_to_precision v p := by
  simp only [round_to_precision]
  have hf : (10 : ℚ) ^ p ≠ 0 := zpow_ne_zero p (by norm_num)
  rw [div_mul_cancel₀ _ hf, cround_intCast]

/-- C4: for every value v and every integer precision p at least 0,
applying round_to_precision twice at the same precision equals applying
it once. -/
theorem spec_c4 (v : ℚ) (p : ℤ) (_hp : 0 ≤ p) :
    round_to_precision (round_to_precision v p) p = round_to_precision v p :=
  round_to_precision_idem v p

/-- Witness for C4 at v = 7/3, p = 2. -/
theorem spec_c4_witness :
    0 ≤ (2 : ℤ) ∧
    round_to_precision (round_to_precision (7 / 3) 2) 2 =
      round_to_precision (7 / 3) 2 :=
  ⟨by decide, spec_c4 (7 / 3) 2 (by decide)⟩

/-- C3 (amended): calc_divide of calculator.c fails with
CALC_ERROR_DIVISION_BY_ZERO exactly when b = 0 and otherwise writes the
exact quotient a / b; AdvancedCalculator::divide of calculator.cpp throws
exactly when b = 0 and otherwise returns the quotient rounded to the
calculator precision (not the raw quotient). -/
theorem spec_c3 (a b r0 : ℚ) (c : CalculatorBase) :
    ((calc_divide a b (some r0)).1 = CALC_ERROR_DIVISION_BY_ZERO ↔ b = 0) ∧
    (b ≠ 0 → calc_divide a b (some r0) = (CALC_SUCCESS, some (a / b))) ∧
    (b = 0 → AdvancedCalculator.divide c a b = Except.error "Division by zero") ∧
    (b ≠ 0 → AdvancedCalculator.divide c a b =
      Except.ok (round_to_precision (a / b) c.precision,
        addToHistory c OperationType.DIVIDE [a, b]
          (round_to_precision (a / b) c.precision))) := by
  refine ⟨?_, ?_, ?_, ?_⟩
  · by_cases hb : b = 0 <;> simp [calc_divide, hb]
  · intro hb; simp [calc_divide, hb]
  · intro hb; simp [AdvancedCalculator.divide, hb]
  · intro hb; simp [AdvancedCalculator.divide, roundToPrecision, hb]

/-- C3 counterexample: with the default precision 4, the C++ divide
returns 0.3333 on input (1, 3), which is not the quotient 1/3. -/
theorem spec_c3_cex :
    AdvancedCalculator.divide cppT 1 3 =
      Except.ok (3333 / 10000,
        { name := "Double Calculator", precision := 4,
          history := [⟨OperationType.DIVIDE, [1, 3], 3333 / 10000⟩],
          enable_history := true }) ∧
    (3333 / 10000 : ℚ) ≠ 1 / 3 := by
  constructor
  · norm_num [AdvancedCalculator.divide, roundToPrecision, round_to_precision,
      cround, cppT, addToHistory]
  · norm_num

/-- Witness for C3 at a = 10, b = 5 (and b = 0 for the failure side). -/
theorem spec_c3_witness :
    calc_divide 10 5 (some 0) = (CALC_SUCCESS, some (10 / 5)) ∧
    ((calc_divide 10 0 (some 0)).1 = CALC_ERROR_DIVISION_BY_ZERO ↔ (0 : ℚ) = 0) :=
  ⟨(spec_c3 10 5 0 cppT).2.1 (by decide), (spec_c3 10 0 0 cppT).1⟩

/-- C1: when the dispatched engine function fails,
perform_binary_operation and perform_unary_operation return that failure
code unchanged, the result cell holds the raw value left by the engine
function (no rounding), and the calculator state -- history count and all
stored entries included -- is returned exactly as it was. -/
theorem spec_c1 (c : calculator_t) (a b : ℚ) (op : operation_type_t)
    (f : binary_op_func) (g : unary_op_func) (r0 : ℚ) (now : ℕ)
    (hf : (f a b (some r0)).1 ≠ CALC_SUCCESS)
    (hg : (g a (some r0)).1 ≠ CALC_SUCCESS) :
    perform_binary_operation (some c) a b op (some f) (some r0) now
      = ((f a b (some r0)).1, some ((f a b (some r0)).2.getD r0), some c) ∧
    perform_unary_operation (some c) a op (some g) (some r0) now
      = ((g a (some r0)).1, some ((g a (some r0)).2.getD r0), some c) := by
  constructor
  · simp only [perform_binary_operation]
    rw [if_neg hf]
  · simp only [perform_unary_operation]
    rw [if_neg hg]

/-- Witness for C1: division by zero and square root of a negative
number leave the freshly initialized calculator untouched. -/
theorem spec_c1_witness :
    perform_binary_operation (some calW) (-1) 0 OP_DIVIDE (some calc_divide)
        (some 5) 0 = (CALC_ERROR_DIVISION_BY_ZERO, some 5, some calW) ∧
    perform_unary_operation (some calW) (-1) OP_SQRT
        (some (calc_sqrt (fun x => x))) (some 5) 0
      = (CALC_ERROR_NEGATIVE_ROOT, some 5, some calW) := by
  have h := spec_c1 calW (-1) 0 OP_DIVIDE calc_divide (calc_sqrt (fun x => x))
    5 0 (by simp [calc_divide]) (by simp [calc_sqrt])
  refine ⟨h.1.trans ?_, h.2.trans ?_⟩
  · norm_num [calc_divide]
  · norm_num [calc_sqrt]

/-- C9: calc_power writes the raw pow value into the result cell before
inspecting errno, so on its CALC_ERROR_OVERFLOW failure the caller's
result location has already been overwritten with pow(base, exponent);
the other failing engine paths (division by zero, negative square root)
leave the result cell untouched. -/
theorem spec_c9 (powf : ℚ → ℚ → ℚ) (errnoERange : Bool) (base exponent : ℚ)
    (sqrtf : ℚ → ℚ) (a x r0 : ℚ)
    (hov : (calc_power powf errnoERange base exponent (some r0)).1
            = CALC_ERROR_OVERFLOW)
    (hx : x < 0) :
    (calc_power powf errnoERange base exponent (some r0)).2
        = some (powf base exponent) ∧
    (calc_divide a 0 (some r0)).2 = some r0 ∧
    (calc_sqrt sqrtf x (some r0)).2 = some r0 := by
  refine ⟨?_, ?_, ?_⟩
  · cases herr : errnoERange
    · rw [calc_power] at hov
      simp [herr] at hov
    · simp [calc_power, herr]
  · simp [calc_divide]
  · simp [calc_sqrt, hx]

/-- Witness for C9 with an opaque pow standing in for libm and the
errno range flag raised. -/
theorem spec_c9_witness :
    (calc_power (fun p q => p * q) true 2 3 (some 5)).2 = some 6 ∧
    (calc_divide 1 0 (some 5)).2 = some 5 ∧
    (calc_sqrt (fun x => x) (-1) (some 5)).2 = some 5 := by
  have h := spec_c9 (fun p q => p * q) true 2 3 (fun x => x) 1 (-1) 5
    (by norm_num [calc_power]) (by norm_num)
  refine ⟨h.1.trans (by norm_num), h.2.1, h.2.2⟩

/-- C10: every engine function answers CALC_ERROR_INVALID_INPUT on a null
result pointer without writing anything, and the two perform wrappers
answer CALC_ERROR_INVALID_INPUT whenever the calculator, the operation
function or the result pointer is null, leaving the result cell and the
calculator state unchanged and never invoking the operation function. -/
theorem spec_c10 (a b x _r0 : ℚ) (powf : ℚ → ℚ → ℚ) (errnoERange : Bool)
    (sqrtf : ℚ → ℚ) (numbers : Option (List ℚ)) (count : ℤ)
    (cal : Option calculator_t) (op : operation_type_t)
    (f : Option binary_op_func) (g : Option unary_op_func)
    (res : Option ℚ) (now : ℕ) :
    calc_add a b none = (CALC_ERROR_INVALID_INPUT, none) ∧
    calc_subtract a b none = (CALC_ERROR_INVALID_INPUT, none) ∧
    calc_multiply a b none = (CALC_ERROR_INVALID_INPUT, none) ∧
    calc_divide a b none = (CALC_ERROR_INVALID_INPUT, none) ∧
    calc_power powf errnoERange a b none = (CALC_ERROR_INVALID_INPUT, none) ∧
    calc_square x none = (CALC_ERROR_INVALID_INPUT, none) ∧
    calc_sqrt sqrtf x none = (CALC_ERROR_INVALID_INPUT, none) ∧
    calc_average numbers count none = (CALC_ERROR_INVALID_INPUT, none) ∧
    (cal = none ∨ f = none ∨ res = none →
      perform_binary_operation cal a b op f res now
        = (CALC_ERROR_INVALID_INPUT, res, cal)) ∧
    (cal = none ∨ g = none ∨ res = none →
      perform_unary_operation cal a op g res now
        = (CALC_ERROR_INVALID_INPUT, res, cal)) := by
  refine ⟨rfl, rfl, rfl, rfl, rfl, rfl, rfl, ?_, ?_, ?_⟩
  · cases numbers <;> rfl
  · intro h
    rcases h with rfl | rfl | rfl
    · cases f <;> cases res <;> rfl
    · cases cal <;> cases res <;> rfl
    · cases cal <;> cases f <;> rfl
  · intro h
    rcases h with rfl | rfl | rfl
    · cases g <;> cases res <;> rfl
    · cases cal <;> cases res <;> rfl
    · cases cal <;> cases g <;> rfl

/-- Witness for C10: a null calculator pointer and a null operation
function are both rejected without touching the result cell. -/
theorem spec_c10_witness :
    perform_binary_operation none 1 2 OP_ADD (some calc_add) (some 0) 0
      = (CALC_ERROR_INVALID_INPUT, some 0, none) ∧
    perform_unary_operation (some calW) 1 OP_SQUARE none (some 0) 0
      = (CALC_ERROR_INVALID_INPUT, some 0, some calW) := by
  have h := spec_c10 1 2 1 0 (fun p q => p * q) false (fun y => y)
    (some []) 1 none OP_ADD (some calc_add) none (some 0) 0
  have h2 := spec_c10 1 2 1 0 (fun p q => p * q) false (fun y => y)
    (some []) 1 (some calW) OP_SQUARE (some calc_add) none (some 0) 0
  exact ⟨(h.2.2.2.2.2.2.2.2.1) (Or.inl rfl), (h2.2.2.2.2.2.2.2.2.2) (Or.inr (Or.inl rfl))⟩

/-- C7 (amended): calculator_init fails with CALC_ERROR_INVALID_INPUT
exactly when the calculator pointer or the name pointer is null, and on
failure no calculator is produced (the pointee is left as it was); an
empty name string is accepted. -/
theorem spec_c7 (cal : Option calculator_t) (name : Option String) (p : ℤ) :
    ((calculator_init cal name p).1 = CALC_ERROR_INVALID_INPUT ↔
      cal = none ∨ name = none) ∧
    ((calculator_init cal name p).1 = CALC_ERROR_INVALID_INPUT →
      (calculator_init cal name p).2 = cal) := by
  cases cal <;> cases name <;> simp [calculator_init]

set_option maxRecDepth 4000 in
/-- C7 counterexample: initialization with the empty name succeeds and
produces a calculator, instead of failing with CALC_ERROR_INVALID_INPUT. -/
theorem spec_c7_cex :
    calculator_init (some calW) (some "") 4 =
      (CALC_SUCCESS,
        some { name := "", precision := 4, history := [], history_count := 0,
               enable_history := true }) ∧
    CALC_SUCCESS ≠ CALC_ERROR_INVALID_INPUT := by
  exact ⟨by decide, by decide⟩

/-- Witness for C7 at a null calculator pointer. -/
theorem spec_c7_witness :
    ((calculator_init none (some "W") 4).1 = CALC_ERROR_INVALID_INPUT ↔
      (none : Option calculator_t) = none ∨ (some "W" : Option String) = none) ∧
    (calculator_init none (some "W") 4).2 = none := by
  have h := spec_c7 none (some "W") 4
  exact ⟨h.1, h.2 (h.1.mpr (Or.inl rfl))⟩

/-- C8 (amended): a successful unary operation with history enabled and
spare capacity appends a history entry whose fixed two-slot operand array
holds the operand in slot 0 and the filler 0.0 in slot 1 (not a
single-element sequence); the C++ square really does record the
single-element operand vector. -/
theorem spec_c8 (c : calculator_t) (a r0 : ℚ) (op : operation_type_t)
    (g : unary_op_func) (now : ℕ)
    (hs : (g a (some r0)).1 = CALC_SUCCESS) (he : c.enable_history = true)
    (hc : c.history_count < MAX_HISTORY) :
    (perform_unary_operation (some c) a op (some g) (some r0) now).2.2 =
      some { c with
        history := c.history.take c.history_count ++
          [⟨op, [a, 0],
            round_to_precision ((g a (some r0)).2.getD r0) c.precision, now⟩],
        history_count := c.history_count + 1 } ∧
    (∀ (cp : CalculatorBase) (x : ℚ), cp.enable_history = true →
      (AdvancedCalculator.square cp x).2.history =
        cp.history ++ [⟨OperationType.SQUARE, [x],
          round_to_precision (x * x) cp.precision⟩]) := by
  constructor
  · simp only [perform_unary_operation]
    rw [if_pos hs]
    simp only [add_to_history, he]
    rw [if_neg (by simp; omega)]
  · intro cp x hen
    simp [AdvancedCalculator.square, addToHistory, hen, roundToPrecision]

/-- C8 counterexample: squaring 3 on a fresh calculator appends an entry
whose stored operand array is the two-element [3, 0], not the
single-element [3]. -/
theorem spec_c8_cex :
    (perform_unary_operation (some calW) 3 OP_SQUARE (some calc_square)
        (some 0) 7).2.2 =
      some { name := "W", precision := 4,
             history := [⟨OP_SQUARE, [3, 0], 9, 7⟩], history_count := 1,
             enable_history := true } ∧
    [(3 : ℚ), 0] ≠ [3] := by
  constructor
  · norm_num [perform_unary_operation, calc_square, calW, add_to_history,
      MAX_HISTORY, round_to_precision, cround]
  · simp

/-- Witness for C8: the square of 3 through perform_unary_operation on
the fresh calculator calW, and the C++ square of 3. -/
theorem spec_c8_witness :
    (perform_unary_operation (some calW) 3 OP_SQUARE (some calc_square)
        (some 0) 7).2.2 =
      some { calW with
        history := calW.history.take calW.history_count ++
          [⟨OP_SQUARE, [3, 0],
            round_to_precision ((calc_square 3 (some 0)).2.getD 0)
              calW.precision, 7⟩],
        history_count := calW.history_count + 1 } ∧
    (AdvancedCalculator.square cppT 3).2.history =
      cppT.history ++ [⟨OperationType.SQUARE, [3],
        round_to_precision (3 * 3) cppT.precision⟩] := by
  have h := spec_c8 calW 3 0 OP_SQUARE calc_square 7 (by simp [calc_square])
    (by decide) (by decide)
  exact ⟨h.1, h.2 cppT 3 (by decide)⟩

/-- add_to_history never pushes the counter past MAX_HISTORY. -/
theorem add_to_history_count_le (cal : calculator_t) (op : operation_type_t)
    (o1 o2 r : ℚ) (now : ℕ) (h : cal.history_count ≤ MAX_HISTORY) :
    (add_to_history cal op o1 o2 r now).history_count ≤ MAX_HISTORY := by
  unfold add_to_history
  split_ifs with hg
  · exact h
  · push_neg at hg
    have h2 := hg.2
    simp only
    omega

/-- Every reachable C calculator state keeps its counter at most
MAX_HISTORY. -/
theorem reachable_count_le (c : calculator_t) (h : Reachable c) :
    c.history_count ≤ MAX_HISTORY := by
  induction h with
  | init prev nm p c h =>
      cases prev with
      | none => simp [calculator_init] at h
      | some q =>
          simp only [calculator_init, Option.some.injEq] at h
          subst h
          simp [MAX_HISTORY]
  | binary c a b op f r0 now c2 hc h ih =>
      simp only [perform_binary_operation] at h
      split at h <;> simp only [Option.some.injEq] at h <;> subst h
      · exact add_to_history_count_le _ _ _ _ _ _ ih
      · exact ih
  | unary c a op f r0 now c2 hc h ih =>
      simp only [perform_unary_operation] at h
      split at h <;> simp only [Option.some.injEq] at h <;> subst h
      · exact add_to_history_count_le _ _ _ _ _ _ ih
      · exact ih
  | clear c c2 hc h ih =>
      simp only [clear_history, Option.some.injEq] at h
      subst h
      simp [MAX_HISTORY]

/-- C2 (amended): the C calculator's history count never exceeds
MAX_HISTORY = 100 in any reachable state, and at capacity add_to_history
is a silent no-op (no error is signalled, no stored entry changes); the
C++ CalculatorBase::addToHistory, by contrast, has no capacity check and
appends whenever history is enabled. -/
theorem spec_c2 :
    (∀ c : calculator_t, Reachable c → c.history_count ≤ MAX_HISTORY) ∧
    (∀ (cal : calculator_t) (op : operation_type_t) (o1 o2 r : ℚ) (now : ℕ),
      cal.history_count = MAX_HISTORY →
      add_to_history cal op o1 o2 r now = cal) ∧
    (∀ (c : CalculatorBase) (op : OperationType) (ops : List ℚ) (r : ℚ),
      c.enable_history = true →
      (addToHistory c op ops r).history = c.history ++ [⟨op, ops, r⟩]) := by
  refine ⟨fun c h => reachable_count_le c h, ?_, ?_⟩
  · intro cal op o1 o2 r now hc
    unfold add_to_history
    rw [if_pos (Or.inr (le_of_eq hc.symm))]
  · intro c op ops r he
    simp [addToHistory, he]

/-- The C++ square preserves the history-enabled flag. -/
theorem squareIter_enable (n : ℕ) (c : CalculatorBase) :
    (squareIter n c).enable_history = c.enable_history := by
  induction n with
  | zero => rfl
  | succ k ih =>
      simp only [squareIter, AdvancedCalculator.square]
      unfold addToHistory
      split_ifs <;> simpa using ih

/-- With history enabled, n C++ square calls grow the history by n. -/
theorem squareIter_length (n : ℕ) (c : CalculatorBase)
    (h : c.enable_history = true) :
    (squareIter n c).history.length = c.history.length + n := by
  induction n with
  | zero => simp [squareIter]
  | succ k ih =>
      have he : (squareIter k c).enable_history = true :=
        (squareIter_enable k c).trans h
      simp only [squareIter, AdvancedCalculator.square]
      simp [addToHistory, he, ih]
      omega

/-- C2 counterexample: on the C++ calculator, one hundred successful
squares already fill one hundred entries yet the next append still grows
the ledger, so a reachable state exceeds the claimed capacity 100. -/
theorem spec_c2_cex :
    (squareIter 100 cppT).history.length = 100 ∧
    (squareIter 101 cppT).history.length = 101 ∧
    ¬ (squareIter 101 cppT).history.length ≤ MAX_HISTORY := by
  have h100 := squareIter_length 100 cppT (by decide)
  have h101 := squareIter_length 101 cppT (by decide)
  have hz : cppT.history.length = 0 := rfl
  rw [hz, Nat.zero_add] at h100 h101
  exact ⟨h100, h101, by rw [h101]; decide⟩

set_option maxRecDepth 4000 in
/-- Witness for C2: the freshly initialized calculator calW is reachable
and within capacity, a calculator whose counter sits at capacity drops
the next entry, and the enabled C++ ledger appends. -/
theorem spec_c2_witness :
    calW.history_count ≤ MAX_HISTORY ∧
    add_to_history calFull OP_ADD 1 2 3 0 = calFull ∧
    (addToHistory cppT OperationType.ADD [1, 2] 3).history =
      cppT.history ++ [⟨OperationType.ADD, [1, 2], 3⟩] := by
  have h := spec_c2
  exact ⟨h.1 calW (Reachable.init (some calW) "W" 4 calW (by decide)),
    h.2.1 calFull OP_ADD 1 2 3 0 (by decide),
    h.2.2 cppT OperationType.ADD [1, 2] 3 (by decide)⟩

/-- The recursive C factorial agrees with the iterative wrapped product
on natural inputs. -/
theorem factorial_natCast (n : ℕ) : factorial (n : ℤ) = fact64spec n := by
  induction n with
  | zero =>
      unfold factorial
      norm_num [fact64spec]
  | succ k ih =>
      unfold factorial
      rcases Nat.eq_zero_or_pos k with rfl | hk
      · norm_num [fact64spec]
      · rw [if_neg (by push_cast; omega), if_neg (by push_cast; omega)]
        have hc : ((k + 1 : ℕ) : ℤ) - 1 = (k : ℤ) := by push_cast; ring
        rw [hc, ih]
        obtain ⟨j, rfl⟩ : ∃ j, k = j + 1 := ⟨k - 1, by omega⟩
        rw [fact64spec, fact64spec]
        simp only [Nat.add_sub_cancel]
        rw [List.range'_concat, List.foldl_append]
        simp only [List.foldl_cons, List.foldl_nil]
        congr 1
        push_cast
        ring

/-- The wrapped product agrees with the true factorial up to 20 (where
the 64-bit accumulator does not overflow). -/
theorem fact64spec_small :
    ∀ m : ℕ, m < 21 → fact64spec m = (Nat.factorial m : ℤ) := by decide

/-- factorial on a nonnegative argument computes the wrapped product. -/
theorem factorial_nonneg_eq (n : ℤ) (h : 0 ≤ n) :
    factorial n = fact64spec n.toNat := by
  obtain ⟨m, rfl⟩ : ∃ m : ℕ, n = (m : ℤ) := ⟨n.toNat, (Int.toNat_of_nonneg h).symm⟩
  rw [Int.toNat_natCast]
  exact factorial_natCast m

/-- C5: factorial signals failure with the sentinel -1 for negative
input, returns 1 on 0 and 1, and otherwise returns the product
n * (n-1) * ... * 1 as accumulated step by step in wrapping 64-bit signed
arithmetic; up to n = 20 that product is the true factorial. -/
theorem spec_c5 (n : ℤ) :
    (n < 0 → factorial n = -1) ∧
    (n = 0 ∨ n = 1 → factorial n = 1) ∧
    (0 ≤ n → factorial n = fact64spec n.toNat) ∧
    (0 ≤ n → n ≤ 20 → factorial n = (Nat.factorial n.toNat : ℤ)) := by
  refine ⟨?_, ?_, fun h => factorial_nonneg_eq n h, ?_⟩
  · intro h
    unfold factorial
    rw [if_pos h]
  · rintro (rfl | rfl) <;> (unfold factorial; norm_num)
  · intro h1 h2
    rw [factorial_nonneg_eq n h1, fact64spec_small n.toNat (by omega)]

/-- Witness for C5 at -3, 1, 5 and 20. -/
theorem spec_c5_witness :
    factorial (-3) = -1 ∧ factorial 1 = 1 ∧ factorial 5 = fact64spec 5 ∧
    factorial 20 = (Nat.factorial 20 : ℤ) := by
  have h1 := (spec_c5 (-3)).1 (by decide)
  have h2 := (spec_c5 1).2.1 (Or.inr rfl)
  have h3 := (spec_c5 5).2.2.1 (by decide)
  have h4 := (spec_c5 20).2.2.2 (by decide) (by decide)
  exact ⟨h1, h2, h3, h4⟩

/-- An integer bounded by its own square is bounded by anything above the
square. -/
theorem le_of_mul_self_le {i n : ℤ} (h : i * i ≤ n) : i ≤ n := by
  rcases le_or_lt i 0 with h0 | h0
  · exact le_trans h0 (le_trans (mul_self_nonneg i) h)
  · nlinarith

/-- Correctness of the 6k plus-minus-1 trial-division loop: started at a
candidate i congruent to 5 mod 6 with no divisor of n below i, it returns
true exactly when n is prime (for n above 4 with no factor 2 or 3). -/
theorem is_prime_loop_correct (n : ℤ) (hn : 4 < n) (h2 : ¬ (2 : ℤ) ∣ n)
    (h3 : ¬ (3 : ℤ) ∣ n) :
    ∀ (k : ℕ) (i : ℤ), (n + 7 - i).toNat = k → 5 ≤ i → i % 6 = 5 →
      (∀ d : ℤ, 2 ≤ d → d < i → ¬ d ∣ n) →
      (is_prime_loop n i = true ↔ Prime n) := by
  intro k
  induction k using Nat.strong_induction_on with
  | _ k IH =>
    intro i hk h5 hmod hnd
    by_cases hii : i * i ≤ n
    · by_cases hdiv : n % i = 0 ∨ n % (i + 2) = 0
      · have hfalse : is_prime_loop n i = false := by
          rw [is_prime_loop]
          rcases hdiv with hd | hd <;> simp [hii, Int.dvd_of_emod_eq_zero hd]
        rw [hfalse]
        constructor
        · intro hcon
          exact absurd hcon (by simp)
        · intro hp
          exfalso
          have hpN : Nat.Prime n.natAbs := Int.prime_iff_natAbs_prime.mp hp
          rcases hdiv with hd | hd
          · have hdvd : i ∣ n := Int.dvd_of_emod_eq_zero hd
            have hdN : i.natAbs ∣ n.natAbs := Int.natAbs_dvd_natAbs.mpr hdvd
            rcases Nat.Prime.eq_one_or_self_of_dvd hpN _ hdN with h1 | h1
            · omega
            · have hin : i = n := by omega
              rw [hin] at hii
              nlinarith
          · have hdvd : (i + 2) ∣ n := Int.dvd_of_emod_eq_zero hd
            have hdN : (i + 2).natAbs ∣ n.natAbs := Int.natAbs_dvd_natAbs.mpr hdvd
            rcases Nat.Prime.eq_one_or_self_of_dvd hpN _ hdN with h1 | h1
            · omega
            · have hin : i + 2 = n := by omega
              nlinarith
      · have hstep : is_prime_loop n i = is_prime_loop n (i + 6) := by
          have hnd1 : ¬ i ∣ n := fun hdd =>
            hdiv (Or.inl (Int.emod_eq_zero_of_dvd hdd))
          have hnd2 : ¬ (i + 2) ∣ n := fun hdd =>
            hdiv (Or.inr (Int.emod_eq_zero_of_dvd hdd))
          rw [is_prime_loop]
          simp [hii, hnd1, hnd2]
        rw [hstep]
        have hin : i ≤ n := le_of_mul_self_le hii
        refine IH (n + 7 - (i + 6)).toNat (by omega) (i + 6) rfl (by omega)
          (by omega) ?_
        intro d hd2 hd6 hdvd
        by_cases hdi : d < i
        · exact hnd d hd2 hdi hdvd
        · push_neg at hdi
          push_neg at hdiv
          obtain ⟨e, rfl⟩ : ∃ e : ℤ, d = i + e := ⟨d - i, by ring⟩
          have he1 : 0 ≤ e := by omega
          have he2 : e < 6 := by omega
          interval_cases e
          · exact hdiv.1 (Int.emod_eq_zero_of_dvd (by simpa using hdvd))
          · exact h2 (dvd_trans (by omega : (2 : ℤ) ∣ i + 1) hdvd)
          · exact hdiv.2 (Int.emod_eq_zero_of_dvd hdvd)
          · exact h2 (dvd_trans (by omega : (2 : ℤ) ∣ i + 3) hdvd)
          · exact h3 (dvd_trans (by omega : (3 : ℤ) ∣ i + 4) hdvd)
          · exact h2 (dvd_trans (by omega : (2 : ℤ) ∣ i + 5) hdvd)
    · have htrue : is_prime_loop n i = true := by
        rw [is_prime_loop]
        simp [hii]
      rw [htrue]
      push_neg at hii
      simp only [true_iff]
      by_contra hnp
      have hnN : ¬ Nat.Prime n.natAbs := fun hx =>
        hnp (Int.prime_iff_natAbs_prime.mpr hx)
      have hpos : 0 < n.natAbs := by omega
      have hmfd := Nat.minFac_dvd n.natAbs
      have hmfp : (n.natAbs.minFac).Prime := Nat.minFac_prime (by omega)
      have hmf2 : 2 ≤ n.natAbs.minFac := hmfp.two_le
      have hsq : n.natAbs.minFac ^ 2 ≤ n.natAbs := Nat.minFac_sq_le_self hpos hnN
      have hy : ((n.natAbs : ℕ) : ℤ) = n := Int.natAbs_of_nonneg (by omega)
      have hpdvd : ((n.natAbs.minFac : ℕ) : ℤ) ∣ n := by
        have hx : ((n.natAbs.minFac : ℕ) : ℤ) ∣ ((n.natAbs : ℕ) : ℤ) :=
          Int.natCast_dvd_natCast.mpr hmfd
        rwa [hy] at hx
      have hp2 : (2 : ℤ) ≤ ((n.natAbs.minFac : ℕ) : ℤ) := by exact_mod_cast hmf2
      have hpsq : ((n.natAbs.minFac : ℕ) : ℤ) * ((n.natAbs.minFac : ℕ) : ℤ) ≤ n := by
        have hx : (((n.natAbs.minFac ^ 2 : ℕ) : ℕ) : ℤ) ≤ ((n.natAbs : ℕ) : ℤ) := by
          exact_mod_cast hsq
        rw [hy] at hx
        push_cast at hx
        nlinarith [hx]
      have hpi : ((n.natAbs.minFac : ℕ) : ℤ) < i := by
        by_contra hge
        push_neg at hge
        have hsq2 : i * i ≤ ((n.natAbs.minFac : ℕ) : ℤ) * ((n.natAbs.minFac : ℕ) : ℤ) :=
          mul_le_mul hge hge (by omega) (by omega)
        linarith
      exact hnd _ hp2 hpi hpdvd

/-- C6: is_prime decides primality: it returns true exactly on the
integers above 1 that are prime (so false on everything at most 1, true
on 2 and 3, false on all other multiples of 2 or 3, and in agreement
with trial division everywhere else). -/
theorem spec_c6 (n : ℤ) : is_prime n = true ↔ 2 ≤ n ∧ Prime n := by
  unfold is_prime
  by_cases h1 : n ≤ 1
  · rw [if_pos h1]
    exact iff_of_false (by simp) (fun hx => absurd hx.1 (by omega))
  · rw [if_neg h1]
    push_neg at h1
    by_cases h3 : n ≤ 3
    · rw [if_pos h3]
      have hn23 : n = 2 ∨ n = 3 := by omega
      rcases hn23 with rfl | rfl
      · exact iff_of_true rfl ⟨by omega, Int.prime_two⟩
      · exact iff_of_true rfl ⟨by omega, Int.prime_three⟩
    · rw [if_neg h3]
      push_neg at h3
      by_cases h23 : n % 2 = 0 ∨ n % 3 = 0
      · rw [if_pos h23]
        refine iff_of_false (by simp) ?_
        rintro ⟨-, hp⟩
        have hpN : Nat.Prime n.natAbs := Int.prime_iff_natAbs_prime.mp hp
        rcases h23 with hd | hd
        · have hdvd : (2 : ℤ) ∣ n := Int.dvd_of_emod_eq_zero hd
          have hdN : (2 : ℕ) ∣ n.natAbs := by
            have := Int.natAbs_dvd_natAbs.mpr hdvd
            simpa using this
          have := (Nat.prime_dvd_prime_iff_eq Nat.prime_two hpN).mp hdN
          omega
        · have hdvd : (3 : ℤ) ∣ n := Int.dvd_of_emod_eq_zero hd
          have hdN : (3 : ℕ) ∣ n.natAbs := by
            have := Int.natAbs_dvd_natAbs.mpr hdvd
            simpa using this
          have := (Nat.prime_dvd_prime_iff_eq Nat.prime_three hpN).mp hdN
          omega
      · rw [if_neg h23]
        push_neg at h23
        have h2d : ¬ (2 : ℤ) ∣ n := fun hd => h23.1 (Int.emod_eq_zero_of_dvd hd)
        have h3d : ¬ (3 : ℤ) ∣ n := fun hd => h23.2 (Int.emod_eq_zero_of_dvd hd)
        have hn4 : 4 < n := by omega
        have hloop := is_prime_loop_correct n hn4 h2d h3d (n + 7 - 5).toNat 5
          rfl (by omega) (by omega) ?nd
        · rw [hloop]
          exact ⟨fun hp => ⟨by omega, hp⟩, fun hx => hx.2⟩
        case nd =>
          intro d hd2 hd5 hdvd
          interval_cases d
          · exact h2d hdvd
          · exact h3d hdvd
          · exact h2d (dvd_trans (by norm_num : (2 : ℤ) ∣ 4) hdvd)
